import Mathlib

/-!
Shallow embedding of `firedrake/functionspacedata.py`: the shared
function-space data module.  Pure fragments of the Python functions become
Lean functions; numpy arrays become lists; the per-mesh caches become
explicit association lists threaded through the operations; exceptions
become `Except`.  Machine integers are modelled by `Nat`/`Int` with the
index bit width `bits` (`IntType.itemsize * 8`) passed explicitly.
-/

namespace FSD

/-- numpy.union1d: the sorted array of the unique elements of the
concatenation of the two inputs. -/
def union1d (a b : List Nat) : List Nat :=
  (List.insertionSort (· ≤ ·) (a ++ b)).dedup

/-- functools.reduce(numpy.union1d, nodes): fold union1d over a non-empty
list of node arrays (the code only calls it when the list is non-empty). -/
def reduceUnion : List (List Nat) → List Nat
  | [] => []
  | x :: xs => xs.foldl union1d x

/-- A DirichletBC object as seen by `FunctionSpaceData.get_map`: its stable
hash identity (`bc.__hash__()`), whether its sub_domain is 'top' or 'bottom'
(an implicit bc), the component restriction and value size of its function
space, and its resolved node array (`bc.nodes`). -/
structure BC where
  hashId : Nat
  isTopBottom : Bool
  component : Option Nat
  valueSize : Nat
  nodes : List Nat
deriving DecidableEq, Repr

/-- The loop `for cmp in range(value_size): negids[idx] |= 1 << (nbits - cmp)`
with `nbits = bits - 2`, applied to one slot value `x`. -/
def orCmpBits (bits valueSize x : Nat) : Nat :=
  (List.range valueSize).foldl (fun a cmp => a ||| (1 <<< (bits - 2 - cmp))) x

/-- The value of `negids` at the slot of constrained node `n` after the bc
loop of `get_map` (`negids` starts as a copy of `bcids`, so the slot of node
`n` starts at `n`; `searchsorted(bcids, bc.nodes)` selects exactly the slots
of the nodes of `bc`). -/
def negStep (bits : Nat) (decorate : Bool) (n acc : Nat) (bc : BC) : Nat :=
  if bc.isTopBottom then acc
  else
    let acc1 :=
      if decorate && bc.component.isNone && decide (n ∈ bc.nodes) then
        orCmpBits bits bc.valueSize acc
      else acc
    match bc.component with
    | some c => if n ∈ bc.nodes then acc1 ||| (1 <<< (bits - 2 - c)) else acc1
    | none => acc1

def negidsAt (bits : Nat) (decorate : Bool) (lbcs : List BC) (n : Nat) : Nat :=
  lbcs.foldl (negStep bits decorate n) n

/-- The cache-miss body of `FunctionSpaceData.get_map`: partition out the
node arrays of the explicit bcs, bit-decorate the union `bcids`, build the
lookup table `node_list_bc` over the node set (identity outside `bcids`,
`-(negids+1)` on it, or the sentinel -10000000 when extruded) and re-index
the entity node list through it.  Returns the new entity node list, or the
ValueError raised for component bc sets containing a component-free bc with
more than three components. -/
def getMapMiss (extruded : Bool) (bits total : Nat)
    (entityNodeList : List Nat) (lbcs : List BC) : Except String (List Int) :=
  let nodes := (lbcs.filter (fun bc => !bc.isTopBottom)).map BC.nodes
  let decorate := lbcs.any (fun bc => bc.component.isSome)
  if nodes.isEmpty then
    .ok (entityNodeList.map (fun n => (n : Int)))
  else if decorate && lbcs.any
      (fun bc => !bc.isTopBottom && bc.component.isNone && decide (bc.valueSize > 3)) then
    .error "ValueError: component BCs with more than three components"
  else
    let bcids := reduceUnion nodes
    let nodeListBC : List Int :=
      (List.range total).map (fun i =>
        if i ∈ bcids then
          if extruded then (-10000000 : Int)
          else -((negidsAt bits decorate lbcs i : Int) + 1)
        else (i : Int))
    .ok (entityNodeList.map (fun n => nodeListBC.getD n 0))

/-- Ordering of bcs by their stable hash identity, used for the canonical
cache key `lbcs = tuple(sorted(bcs, key=lambda bc: bc.__hash__()))`. -/
def bcLE (a b : BC) : Prop := a.hashId ≤ b.hashId

instance : DecidableRel bcLE := fun a b => Nat.decLe a.hashId b.hashId

/-- sorted(bcs, key=hash). -/
def sortBCs (bcs : List BC) : List BC := List.insertionSort bcLE bcs

/-- A map cache of one entity set: canonical bc tuple -> map object, the map
objects being modelled by Nat identities. -/
abbrev MapCache := List (List BC × Nat)

/-- Association-list lookup (dict access). -/
def alookup {κ α : Type} [BEq κ] (k : κ) (l : List (κ × α)) : Option α :=
  (l.find? (fun p => p.1 == k)).map Prod.snd

/-- The caching skeleton of `get_map`: if there are no explicit bcs the key
is the empty tuple, otherwise the bcs sorted by hash; a hit returns the
cached map identity with the cache unchanged, a miss stores a fresh map
identity under the canonical key. -/
def getMapCached (cache : MapCache) (bcs : List BC) (fresh : Nat) :
    Nat × MapCache :=
  let explicitBCs := bcs.filter (fun bc => !bc.isTopBottom)
  let bcs1 := if explicitBCs.isEmpty then [] else bcs
  let lbcs := sortBCs bcs1
  match alookup lbcs cache with
  | some v => (v, cache)
  | none => (fresh, (lbcs, fresh) :: cache)

/-- The size guard of `get_node_set`: for a non-extruded mesh a total node
set size of at least `1 << (bits - 4)` raises RuntimeError; otherwise the
node set (abstracted to its total size) is returned.  `bits` is
`IntType.itemsize * 8`. -/
def get_node_set (extruded : Bool) (bits total : Nat) : Except String Nat :=
  if !extruded && decide ((1 <<< (bits - 4)) ≤ total) then
    .error "RuntimeError: Problems with more nodes per process than supported"
  else .ok total

/-- sorted(xs) for Nat keys. -/
def sortNat (l : List Nat) : List Nat := List.insertionSort (· ≤ ·) l

/-- The inner loop of `entity_dofs_key`: for the sub-entity dict of one
entity, the dof tuples listed by ascending sub-entity key; the dof tuples
themselves are taken as stored, not re-sorted. -/
def innerKey (sub : List (Nat × List Nat)) : List (List Nat) :=
  (sortNat (sub.map Prod.fst)).map (fun sk => (alookup sk sub).getD [])

/-- `entity_dofs_key`: canonical cache key of a FInAT entity_dofs dict,
here an association list entity key -> (sub-entity key -> dof tuple). -/
def entity_dofs_key (d : List (Nat × List (Nat × List Nat))) :
    List (Nat × List (List Nat)) :=
  (sortNat (d.map Prod.fst)).map (fun k => (k, innerKey ((alookup k d).getD [])))

/-- An `op2.Map.MapMask` as assembled by `get_boundary_masks`: the section
(dof count per chart point, in point order), the flat index array, and the
chart points of facet-dimension sub-entities. -/
structure MapMask where
  dofCounts : List Nat
  indices : List Nat
  facetPoints : List Nat
deriving DecidableEq, Repr

/-- Lexicographic order on the 2-tuple entity keys of an extruded cell,
matching Python tuple comparison in `sorted(ecd.keys())`. -/
def pairLE (a b : Nat × Nat) : Prop := a.1 < b.1 ∨ (a.1 = b.1 ∧ a.2 ≤ b.2)

instance : DecidableRel pairLE := fun a b => by unfold pairLE; infer_instance

/-- sorted(keys) for 2-tuple keys. -/
def sortPair (l : List (Nat × Nat)) : List (Nat × Nat) :=
  List.insertionSort pairLE l

/-- The accumulation state of the loop in `get_boundary_masks`: the running
chart point, the closure section dof counts and indices, the support section
dof counts and indices, and the facet points. -/
structure BMState where
  p : Nat
  closCounts : List Nat
  closIdx : List Nat
  supCounts : List Nat
  supIdx : List Nat
  facetPts : List Nat
deriving DecidableEq, Repr

/-- One sub-entity step of the accumulation in `get_boundary_masks`: record
the closure dofs, the support dofs when entity_support_dofs is available
(when it is not, setDof was never called, so the section reports 0 dofs for
the point), the facet point when the entity has facet dimension, and advance
the chart point. -/
def bmStepKey (dim entSum : Nat) (esdEnt : Option (List (Nat × List Nat)))
    (ecdEnt : List (Nat × List Nat)) (st : BMState) (sk : Nat) : BMState :=
  let cd := (alookup sk ecdEnt).getD []
  let st1 : BMState :=
    { st with closCounts := st.closCounts ++ [cd.length],
              closIdx := st.closIdx ++ sortNat cd }
  let st2 : BMState :=
    match esdEnt with
    | some e =>
      let sd := (alookup sk e).getD []
      { st1 with supCounts := st1.supCounts ++ [sd.length],
                 supIdx := st1.supIdx ++ sortNat sd }
    | none => { st1 with supCounts := st1.supCounts ++ [0] }
  let st3 :=
    if entSum = dim - 1 then { st2 with facetPts := st2.facetPts ++ [st2.p] }
    else st2
  { st3 with p := st3.p + 1 }

/-- `get_boundary_masks`: None for a non-extruded mesh; otherwise iterate
the entities of the closure-dof dict in sorted order, skipping the cell
itself, accumulating both sections, and return the dict holding the
topological (closure) and geometric (support) masks.  `esd = none` models
`entity_support_dofs()` having raised NotImplementedError (caught by the
code). -/
def get_boundary_masks (extruded : Bool) (dim : Nat)
    (ecd : List ((Nat × Nat) × List (Nat × List Nat)))
    (esd : Option (List ((Nat × Nat) × List (Nat × List Nat)))) :
    Option (List (String × MapMask)) :=
  if !extruded then none
  else
    let st := (sortPair (ecd.map Prod.fst)).foldl
      (fun st ent =>
        if ent.1 + ent.2 = dim then st
        else
          let ecdEnt := (alookup ent ecd).getD []
          let esdEnt := esd.map (fun e => (alookup ent e).getD [])
          (sortNat (ecdEnt.map Prod.fst)).foldl
            (bmStepKey dim (ent.1 + ent.2) esdEnt ecdEnt) st)
      ⟨0, [], [], [], [], []⟩
    some [("topological", ⟨st.closCounts, st.closIdx, st.facetPts⟩),
          ("geometric", ⟨st.supCounts, st.supIdx, st.facetPts⟩)]

/-- The sub_domain argument of `get_boundary_nodes` for the non-top/bottom
path: "on_boundary" or an explicit facet tag. -/
inductive BSub
  | onBoundary
  | tag (t : Nat)
deriving DecidableEq, Repr

/-- numpy.unique: the sorted unique values. -/
def npUnique (l : List Nat) : List Nat := (sortNat l).dedup

/-- numpy.where(d == 1) over a 0/1 marker vector: the positions holding 1,
in increasing order. -/
def npWhere (d : List Bool) : List Nat :=
  (List.range d.length).filter (fun i => d.getD i false)

/-- `get_boundary_nodes`.  The Python local variable `indices` is modelled
as an Option, assigned exactly on the branches that assign it in the source;
reading it unassigned at the marker step is the UnboundLocalError.  External
inputs: the variable-layer resolver result `extnumIndices`, the rows of the
exterior-facet boundary node map `bmapValues` with its `bmapOffset`, the
facet subset of an explicit tag `subsetIndices`, the layer count, the dof
set total size, and the collective halo `exchange` on the marker Dat. -/
def get_boundary_nodes (variableLayers extruded : Bool) (sub : BSub)
    (extnumIndices : List Nat) (bmapValues : List (List Nat))
    (bmapOffset : List Nat) (subsetIndices : List Nat)
    (layers total : Nat) (exchange : List Bool → List Bool) :
    Except String (List Nat) :=
  let indicesOpt : Option (List Nat) :=
    if variableLayers then some extnumIndices
    else
      match sub with
      | .tag _ =>
        let rows := subsetIndices.map (fun i => bmapValues.getD i [])
        if !extruded then some (npUnique rows.flatten)
        else
          some (npUnique (((List.range (layers - 1)).map (fun i =>
            (rows.map (fun row =>
              row.zipWith (fun x o => x + i * o) bmapOffset)).flatten)).flatten))
      | .onBoundary => none
  match indicesOpt with
  | none =>
    .error "UnboundLocalError: local variable indices referenced before assignment"
  | some indices =>
    let d0 := (List.range total).map (fun i => decide (i ∈ indices))
    let d1 := exchange d0
    .ok (npWhere d1)

/-- The per-mesh max_work_functions cache, keyed by (mesh identity,
ufl element identity); dict assignment shadows earlier entries. -/
abbrev WFCache := List ((Nat × Nat) × Nat)

/-- `get_max_work_functions`: `cache.get(V.ufl_element(), 25)` in the cache
of the mesh of V. -/
def get_max_work_functions (m e : Nat) (s : WFCache) : Nat :=
  (alookup (m, e) s).getD 25

/-- `set_max_work_functions`: `cache[V.ufl_element()] = val` in the cache of
the mesh of V. -/
def set_max_work_functions (m e v : Nat) (s : WFCache) : WFCache :=
  ((m, e), v) :: s

/-! ### Helper lemmas -/

lemma mem_union1d {n : Nat} {a b : List Nat} :
    n ∈ union1d a b ↔ n ∈ a ∨ n ∈ b := by
  unfold union1d
  rw [List.mem_dedup, (List.perm_insertionSort (· ≤ ·) (a ++ b)).mem_iff,
    List.mem_append]

lemma mem_foldl_union1d (n : Nat) :
    ∀ (ls : List (List Nat)) (acc : List Nat),
      n ∈ ls.foldl union1d acc ↔ n ∈ acc ∨ ∃ l ∈ ls, n ∈ l := by
  intro ls
  induction ls with
  | nil => intro acc; simp
  | cons x xs ih =>
    intro acc
    rw [List.foldl_cons, ih, mem_union1d]
    constructor
    · rintro ((h | h) | ⟨l, hl, hn⟩)
      · exact Or.inl h
      · exact Or.inr ⟨x, List.mem_cons_self x xs, h⟩
      · exact Or.inr ⟨l, List.mem_cons_of_mem x hl, hn⟩
    · rintro (h | ⟨l, hl, hn⟩)
      · exact Or.inl (Or.inl h)
      · rcases List.mem_cons.mp hl with h1 | h1
        · exact Or.inl (Or.inr (h1 ▸ hn))
        · exact Or.inr ⟨l, h1, hn⟩

lemma mem_reduceUnion {n : Nat} {ls : List (List Nat)} :
    n ∈ reduceUnion ls ↔ ∃ l ∈ ls, n ∈ l := by
  cases ls with
  | nil => simp [reduceUnion]
  | cons x xs =>
    rw [reduceUnion, mem_foldl_union1d]
    constructor
    · rintro (h | ⟨l, hl, hn⟩)
      · exact ⟨x, List.mem_cons_self x xs, h⟩
      · exact ⟨l, List.mem_cons_of_mem x hl, hn⟩
    · rintro ⟨l, hl, hn⟩
      rcases List.mem_cons.mp hl with h1 | h1
      · exact Or.inl (h1 ▸ hn)
      · exact Or.inr ⟨l, h1, hn⟩

lemma getD_range_map {α : Type} (f : Nat → α) (total n : Nat) (d : α)
    (h : n < total) : (((List.range total).map f).getD n d) = f n := by
  rw [List.getD_eq_getElem?_getD, List.getElem?_map, List.getElem?_range h]
  rfl

lemma foldl_preserve {α β : Type} (P : α → Prop) (f : α → β → α)
    (hf : ∀ a b, P a → P (f a b)) :
    ∀ (l : List β) (a : α), P a → P (l.foldl f a) := by
  intro l
  induction l with
  | nil => intro a h; exact h
  | cons x xs ih => intro a h; exact ih _ (hf _ _ h)

lemma negStep_scalar (bits : Nat) (n acc : Nat) (bc : BC)
    (hc : bc.component = none) : negStep bits false n acc bc = acc := by
  unfold negStep
  rw [hc]
  simp

lemma negidsAt_scalar (bits : Nat) (lbcs : List BC) (n : Nat)
    (hc : ∀ bc ∈ lbcs, bc.component = none) :
    negidsAt bits false lbcs n = n := by
  unfold negidsAt
  induction lbcs with
  | nil => rfl
  | cons bc t ih =>
    rw [List.foldl_cons, negStep_scalar bits n n bc (hc bc (List.mem_cons_self bc t))]
    exact ih (fun b hb => hc b (List.mem_cons_of_mem bc hb))

lemma foldl_orbit_lt (bits : Nat) (hb : 5 ≤ bits) :
    ∀ (l : List Nat) (x : Nat), (∀ c ∈ l, c ≤ 2) → x < 2 ^ (bits - 1) →
      l.foldl (fun a cmp => a ||| (1 <<< (bits - 2 - cmp))) x < 2 ^ (bits - 1) := by
  intro l
  induction l with
  | nil => intro x _ hx; exact hx
  | cons c t ih =>
    intro x hc hx
    rw [List.foldl_cons]
    refine ih _ (fun d hd => hc d (List.mem_cons_of_mem c hd)) ?_
    have hcle : c ≤ 2 := hc c (List.mem_cons_self c t)
    have hbit : (1 <<< (bits - 2 - c)) < 2 ^ (bits - 1) := by
      rw [Nat.shiftLeft_eq, one_mul]
      exact Nat.pow_lt_pow_right (by norm_num) (by omega)
    exact Nat.or_lt_two_pow hx hbit

lemma orCmpBits_lt (bits vs x : Nat) (hb : 5 ≤ bits) (hvs : vs ≤ 3)
    (hx : x < 2 ^ (bits - 1)) : orCmpBits bits vs x < 2 ^ (bits - 1) := by
  unfold orCmpBits
  exact foldl_orbit_lt bits hb (List.range vs) x
    (fun c hc => by have := List.mem_range.mp hc; omega) hx

lemma negStep_lt (bits : Nat) (dec : Bool) (n : Nat) (hb : 5 ≤ bits) (bc : BC)
    (hvs : bc.valueSize ≤ 3) (hcm : ∀ c, bc.component = some c → c ≤ 2)
    (acc : Nat) (hacc : acc < 2 ^ (bits - 1)) :
    negStep bits dec n acc bc < 2 ^ (bits - 1) := by
  unfold negStep
  by_cases htb : bc.isTopBottom
  · simpa [htb]
  · simp only [htb, Bool.false_eq_true, if_false]
    generalize hA :
      (if dec && bc.component.isNone && decide (n ∈ bc.nodes) then
        orCmpBits bits bc.valueSize acc else acc) = acc1
    have hacc1 : acc1 < 2 ^ (bits - 1) := by
      rw [← hA]
      by_cases h : dec && bc.component.isNone && decide (n ∈ bc.nodes)
      · simpa [h] using orCmpBits_lt bits bc.valueSize acc hb hvs hacc
      · simpa [h]
    cases hcomp : bc.component with
    | none => simpa [hcomp] using hacc1
    | some c =>
      have hcle : c ≤ 2 := hcm c hcomp
      simp only [hcomp]
      by_cases hmem : n ∈ bc.nodes
      · simp only [hmem, if_true]
        have hbit : (1 <<< (bits - 2 - c)) < 2 ^ (bits - 1) := by
          rw [Nat.shiftLeft_eq, one_mul]
          exact Nat.pow_lt_pow_right (by norm_num) (by omega)
        exact Nat.or_lt_two_pow hacc1 hbit
      · simpa [hmem] using hacc1

lemma foldl_preserve_mem {α β : Type} (P : α → Prop) (f : α → β → α) :
    ∀ (l : List β), (∀ a b, b ∈ l → P a → P (f a b)) →
      ∀ a, P a → P (l.foldl f a) := by
  intro l
  induction l with
  | nil => intro _ a h; exact h
  | cons x xs ih =>
    intro hf a h
    exact ih (fun a b hb => hf a b (List.mem_cons_of_mem x hb)) _
      (hf a x (List.mem_cons_self x xs) h)

lemma negidsAt_lt (bits : Nat) (dec : Bool) (lbcs : List BC) (n : Nat)
    (hb : 5 ≤ bits) (hn : n < 2 ^ (bits - 4))
    (hvs : ∀ bc ∈ lbcs, bc.valueSize ≤ 3)
    (hcm : ∀ bc ∈ lbcs, ∀ c, bc.component = some c → c ≤ 2) :
    negidsAt bits dec lbcs n < 2 ^ (bits - 1) := by
  have hstart : n < 2 ^ (bits - 1) :=
    lt_of_lt_of_le hn (Nat.pow_le_pow_right (by norm_num) (by omega))
  unfold negidsAt
  exact foldl_preserve_mem (· < 2 ^ (bits - 1)) (negStep bits dec n) lbcs
    (fun acc bc hbc hacc =>
      negStep_lt bits dec n hb bc (hvs bc hbc) (hcm bc hbc) acc hacc)
    n hstart

lemma getMapMiss_eq (extruded : Bool) (bits total : Nat) (enl : List Nat)
    (lbcs : List BC)
    (hbc : ∀ bc ∈ lbcs, bc.isTopBottom = false)
    (hne : lbcs ≠ [])
    (herr : (lbcs.any fun bc =>
        !bc.isTopBottom && bc.component.isNone && decide (bc.valueSize > 3)) = false
      ∨ (lbcs.any fun bc => bc.component.isSome) = false)
    (hlt : ∀ n ∈ enl, n < total) :
    getMapMiss extruded bits total enl lbcs =
      .ok (enl.map (fun n =>
        if lbcs.any (fun bc => decide (n ∈ bc.nodes)) then
          (if extruded then (-10000000 : Int)
           else -((negidsAt bits (lbcs.any fun bc => bc.component.isSome) lbcs n
                    : Int) + 1))
        else (n : Int))) := by
  have hfil : lbcs.filter (fun bc => !bc.isTopBottom) = lbcs :=
    List.filter_eq_self.mpr (fun bc h => by simp [hbc bc h])
  have hie : (lbcs.map BC.nodes).isEmpty = false := by
    cases lbcs with
    | nil => exact absurd rfl hne
    | cons a t => rfl
  have hand : ((lbcs.any fun bc => bc.component.isSome) &&
      (lbcs.any fun bc =>
        !bc.isTopBottom && bc.component.isNone && decide (bc.valueSize > 3)))
      = false := by
    rcases herr with h | h
    · rw [h, Bool.and_false]
    · rw [h, Bool.false_and]
  simp only [getMapMiss, hfil, hie, Bool.false_eq_true, if_false, hand]
  refine congrArg Except.ok (List.map_congr_left fun n hn => ?_)
  rw [getD_range_map _ _ _ _ (hlt n hn)]
  have hiff : n ∈ reduceUnion (lbcs.map BC.nodes) ↔
      (lbcs.any fun bc => decide (n ∈ bc.nodes)) = true := by
    rw [mem_reduceUnion, List.any_eq_true]
    constructor
    · rintro ⟨l, hl, hnl⟩
      rcases List.mem_map.mp hl with ⟨bc, hbcm, rfl⟩
      exact ⟨bc, hbcm, by simpa using hnl⟩
    · rintro ⟨bc, hbcm, hnl⟩
      exact ⟨bc.nodes, List.mem_map_of_mem BC.nodes hbcm, by simpa using hnl⟩
  by_cases h : (lbcs.any fun bc => decide (n ∈ bc.nodes)) = true
  · rw [if_pos (hiff.mpr h), if_pos h]
  · rw [if_neg (fun hm => h (hiff.mp hm)), if_neg h]

/-- C1: for a scalar space (every explicit bc has no component restriction)
on a non-extruded mesh, get_map with a non-empty explicit constraint list
maps every entity-node entry n in the union of the constrained node sets to
-(n+1) and leaves the rest unchanged; negating and subtracting 1 recovers n
on the constrained entries. -/
theorem getMap_scalar_roundtrip (bits total : Nat) (enl : List Nat)
    (lbcs : List BC)
    (hbc : ∀ bc ∈ lbcs, bc.isTopBottom = false ∧ bc.component = none)
    (hne : lbcs ≠ [])
    (hlt : ∀ n ∈ enl, n < total) :
    getMapMiss false bits total enl lbcs =
      .ok (enl.map (fun n =>
        if lbcs.any (fun bc => decide (n ∈ bc.nodes)) then -((n : Int) + 1)
        else (n : Int))) ∧
    ∀ n ∈ enl, (lbcs.any (fun bc => decide (n ∈ bc.nodes))) = true →
      -(-((n : Int) + 1)) - 1 = (n : Int) := by
  have hdec : (lbcs.any fun bc => bc.component.isSome) = false := by
    rw [List.any_eq_false]
    intro bc hbcm
    rw [(hbc bc hbcm).2]
    simp
  constructor
  · rw [getMapMiss_eq false bits total enl lbcs (fun bc h => (hbc bc h).1) hne
      (Or.inr hdec) hlt]
    refine congrArg Except.ok (List.map_congr_left fun n hn => ?_)
    rw [hdec, negidsAt_scalar bits lbcs n (fun bc h => (hbc bc h).2)]
    simp
  · intro n _ _
    ring

/-- Witness for C1 at a concrete instance: two scalar bcs constraining nodes
1,3 and 2 of a 5-node set; entries 1,2,3 of the entity node list become
-2,-3,-4 and entry 0 stays 0; negate-and-subtract-1 recovers the node. -/
theorem getMap_scalar_roundtrip_witness :
    getMapMiss false 64 5 [0, 1, 2, 3]
        [⟨1, false, none, 1, [1, 3]⟩, ⟨2, false, none, 1, [2]⟩] =
      .ok [0, -2, -3, -4] ∧
    -(-((3 : Int) + 1)) - 1 = (3 : Int) := by
  have h := getMap_scalar_roundtrip 64 5 [0, 1, 2, 3]
    [⟨1, false, none, 1, [1, 3]⟩, ⟨2, false, none, 1, [2]⟩]
    (by intro bc hbc; fin_cases hbc <;> exact ⟨rfl, rfl⟩)
    (by simp)
    (by intro n hn; fin_cases hn <;> omega)
  refine ⟨?_, h.2 3 (by simp) (by simp)⟩
  rw [h.1]
  rfl

/-- C4: on an extruded mesh, get_map with explicit constraints writes the
single coarse sentinel -10000000 into every constrained slot, not the
per-node encoding -(negids+1). -/
theorem getMap_extruded_sentinel (bits total : Nat) (enl : List Nat)
    (lbcs : List BC)
    (hbc : ∀ bc ∈ lbcs, bc.isTopBottom = false)
    (hvs : ∀ bc ∈ lbcs, bc.valueSize ≤ 3)
    (hne : lbcs ≠ [])
    (hlt : ∀ n ∈ enl, n < total) :
    getMapMiss true bits total enl lbcs =
      .ok (enl.map (fun n =>
        if lbcs.any (fun bc => decide (n ∈ bc.nodes)) then (-10000000 : Int)
        else (n : Int))) := by
  have herr : (lbcs.any fun bc =>
      !bc.isTopBottom && bc.component.isNone && decide (bc.valueSize > 3))
      = false := by
    rw [List.any_eq_false]
    intro bc hbcm
    have := hvs bc hbcm
    simp only [Bool.and_eq_true, decide_eq_true_eq, not_and]
    intro _ _
    omega
  rw [getMapMiss_eq true bits total enl lbcs hbc hne (Or.inl herr) hlt]
  rfl

/-- Witness for C4: one component-indexed bc on node 1 of a 3-node extruded
set; the constrained entry becomes the sentinel, the others stay. -/
theorem getMap_extruded_sentinel_witness :
    getMapMiss true 64 3 [0, 1, 2] [⟨1, false, some 1, 2, [1]⟩] =
      .ok [0, -10000000, 2] := by
  have h := getMap_extruded_sentinel 64 3 [0, 1, 2] [⟨1, false, some 1, 2, [1]⟩]
    (by intro bc hbc; fin_cases hbc <;> rfl)
    (by intro bc hbc; fin_cases hbc <;> norm_num)
    (by simp)
    (by intro n hn; fin_cases hn <;> omega)
  rw [h]
  rfl

/-- C6 counterexample: a single explicit bc whose function space has value
size 4 and no component restriction does not raise; get_map happily builds
the map (the value-size check is only reached when some bc is
component-indexed). -/
theorem getMap_value_size_no_error :
    getMapMiss false 64 4 [0, 1, 2, 3] [⟨1, false, none, 4, [1]⟩] =
      .ok [0, -2, 2, 3] := by rfl

/-- C6 amended: when some explicit bc is component-indexed (so the map is
decorated) and some explicit bc has no component restriction but value size
above 3, get_map raises the ValueError before building any map. -/
theorem getMap_value_size_error (extruded : Bool) (bits total : Nat)
    (enl : List Nat) (lbcs : List BC)
    (hdec : (lbcs.any fun bc => bc.component.isSome) = true)
    (hbad : (lbcs.any fun bc =>
      !bc.isTopBottom && bc.component.isNone && decide (bc.valueSize > 3)) = true) :
    getMapMiss extruded bits total enl lbcs =
      .error "ValueError: component BCs with more than three components" := by
  have hie : ((lbcs.filter (fun bc => !bc.isTopBottom)).map BC.nodes).isEmpty
      = false := by
    rw [List.any_eq_true] at hbad
    rcases hbad with ⟨bc, hbcm, hprop⟩
    simp only [Bool.and_eq_true] at hprop
    have : bc ∈ lbcs.filter (fun bc => !bc.isTopBottom) :=
      List.mem_filter.mpr ⟨hbcm, hprop.1.1⟩
    cases hfe : (lbcs.filter (fun bc => !bc.isTopBottom)).map BC.nodes with
    | nil =>
      rw [List.map_eq_nil_iff] at hfe
      rw [hfe] at this
      exact absurd this (List.not_mem_nil bc)
    | cons a t => rfl
  simp only [getMapMiss, hie, Bool.false_eq_true, if_false, hdec, hbad,
    Bool.and_self, if_true]

/-- Witness for C6 amended: a component-indexed bc plus a component-free bc
of value size 4 raises the ValueError. -/
theorem getMap_value_size_error_witness :
    getMapMiss false 64 4 [0, 1, 2, 3]
        [⟨1, false, some 0, 2, [1]⟩, ⟨2, false, none, 4, [2]⟩] =
      .error "ValueError: component BCs with more than three components" :=
  getMap_value_size_error false 64 4 [0, 1, 2, 3]
    [⟨1, false, some 0, 2, [1]⟩, ⟨2, false, none, 4, [2]⟩]
    (by rfl) (by rfl)

/-- C9: with the non-extruded node-count headroom n < 2^(bits-4) and at most
three component bits (component indices at most 2, value sizes at most 3),
the encoded slot value negids satisfies negids+1 <= 2^(bits-1), so
-(negids+1) is strictly negative and representable in the signed bits-wide
index type: the lookup-table construction never wraps. -/
theorem negids_encoding_no_overflow (bits n : Nat) (dec : Bool)
    (lbcs : List BC)
    (hb : 5 ≤ bits) (hn : n < 2 ^ (bits - 4))
    (hvs : ∀ bc ∈ lbcs, bc.valueSize ≤ 3)
    (hcm : ∀ bc ∈ lbcs, ∀ c, bc.component = some c → c ≤ 2) :
    negidsAt bits dec lbcs n + 1 ≤ 2 ^ (bits - 1) ∧
    -((negidsAt bits dec lbcs n : Int) + 1) < 0 ∧
    -((2 : Int) ^ (bits - 1)) ≤ -((negidsAt bits dec lbcs n : Int) + 1) := by
  have hlt := negidsAt_lt bits dec lbcs n hb hn hvs hcm
  refine ⟨hlt, by omega, ?_⟩
  have hle : ((negidsAt bits dec lbcs n : Int) + 1) ≤ (2 : Int) ^ (bits - 1) := by
    exact_mod_cast hlt
  linarith

/-- Witness for C9: bits 32, node 5, one component-indexed bc; the encoded
value is 5 ||| 2^29, and the three bounds hold. -/
theorem negids_encoding_no_overflow_witness :
    negidsAt 32 true [⟨1, false, some 1, 2, [5]⟩] 5 + 1 ≤ 2 ^ 31 ∧
    -((negidsAt 32 true [⟨1, false, some 1, 2, [5]⟩] 5 : Int) + 1) < 0 ∧
    -((2 : Int) ^ 31) ≤ -((negidsAt 32 true [⟨1, false, some 1, 2, [5]⟩] 5
      : Int) + 1) := by
  have h := negids_encoding_no_overflow 32 5 true [⟨1, false, some 1, 2, [5]⟩]
    (by norm_num) (by norm_num)
    (by intro bc hbc; fin_cases hbc <;> norm_num)
    (by
      intro bc hbc c hc
      fin_cases hbc
      simp only [BC.component, Option.some.injEq] at hc
      omega)
  exact h

instance : IsTotal BC bcLE := ⟨fun a b => Nat.le_total a.hashId b.hashId⟩

instance : IsTrans BC bcLE := ⟨fun _ _ _ h1 h2 => Nat.le_trans h1 h2⟩

lemma bc_eq_of_perm_of_sorted :
    ∀ (l1 l2 : List BC), l1.Perm l2 → l1.Sorted bcLE → l2.Sorted bcLE →
      (l1.map BC.hashId).Nodup → l1 = l2 := by
  intro l1
  induction l1 with
  | nil =>
    intro l2 hp _ _ _
    exact (List.Perm.nil_eq hp).symm ▸ rfl
  | cons a t ih =>
    intro l2 hp hs1 hs2 hnd
    cases l2 with
    | nil => exact absurd hp.symm (by simp)
    | cons b t2 =>
      have hab : a = b := by
        by_contra hne
        have ha2 : a ∈ b :: t2 := hp.mem_iff.mp (List.mem_cons_self a t)
        have hb1 : b ∈ a :: t := hp.mem_iff.mpr (List.mem_cons_self b t2)
        have hat2 : a ∈ t2 := by
          rcases List.mem_cons.mp ha2 with h | h
          · exact absurd h hne
          · exact h
        have hbt : b ∈ t := by
          rcases List.mem_cons.mp hb1 with h | h
          · exact absurd h.symm hne
          · exact h
        have h1 : bcLE a b := List.rel_of_sorted_cons hs1 b hbt
        have h2 : bcLE b a := List.rel_of_sorted_cons hs2 a hat2
        have hhash : a.hashId = b.hashId := Nat.le_antisymm h1 h2
        have hnotin : a.hashId ∉ t.map BC.hashId :=
          (List.nodup_cons.mp hnd).1
        exact hnotin (hhash ▸ List.mem_map_of_mem BC.hashId hbt)
      subst hab
      have hpt : t.Perm t2 := hp.cons_inv
      exact congrArg (a :: ·)
        (ih t2 hpt hs1.of_cons hs2.of_cons (List.nodup_cons.mp hnd).2)

lemma sortBCs_perm_eq (l1 l2 : List BC) (hp : l1.Perm l2)
    (hnd : (l1.map BC.hashId).Nodup) : sortBCs l1 = sortBCs l2 := by
  apply bc_eq_of_perm_of_sorted
  · exact ((List.perm_insertionSort bcLE l1).trans hp).trans
      (List.perm_insertionSort bcLE l2).symm
  · exact List.sorted_insertionSort bcLE l1
  · exact List.sorted_insertionSort bcLE l2
  · exact (((List.perm_insertionSort bcLE l1).map BC.hashId).nodup_iff).mpr hnd

lemma alookup_cons_self {α : Type} (k : List BC) (v : α)
    (c : List (List BC × α)) : alookup k ((k, v) :: c) = some v := by
  simp [alookup, List.find?_cons_of_pos]

/-- C2: two constraint lists that are permutations of each other (same
constraints as a set, different supplied order) with distinct hash
identities and no implicit top/bottom members hit the same cache slot: the
second get_map call returns exactly the map identity the first call cached,
and leaves the cache untouched. -/
theorem getMap_cache_order_independent (c : MapCache) (bcs1 bcs2 : List BC)
    (f1 f2 : Nat)
    (hperm : bcs1.Perm bcs2)
    (hnd : (bcs1.map BC.hashId).Nodup)
    (hexp : ∀ bc ∈ bcs1, bc.isTopBottom = false) :
    getMapCached ((getMapCached c bcs1 f1).2) bcs2 f2 = getMapCached c bcs1 f1 := by
  have hexp2 : ∀ bc ∈ bcs2, bc.isTopBottom = false :=
    fun bc h => hexp bc (hperm.mem_iff.mpr h)
  have hfil1 : bcs1.filter (fun bc => !bc.isTopBottom) = bcs1 :=
    List.filter_eq_self.mpr (fun bc h => by simp [hexp bc h])
  have hfil2 : bcs2.filter (fun bc => !bc.isTopBottom) = bcs2 :=
    List.filter_eq_self.mpr (fun bc h => by simp [hexp2 bc h])
  have hkey : sortBCs bcs2 = sortBCs bcs1 :=
    (sortBCs_perm_eq bcs1 bcs2 hperm hnd).symm
  have hie : bcs1.isEmpty = bcs2.isEmpty := by
    cases bcs1 with
    | nil =>
      have h2 : bcs2 = [] := hperm.nil_eq.symm
      rw [h2]
    | cons a t =>
      cases bcs2 with
      | nil => exact absurd hperm.symm (by simp)
      | cons b t2 => rfl
  have hunf : ∀ (cc : MapCache) (bcs : List BC) (f : Nat),
      getMapCached cc bcs f =
        match alookup (sortBCs
            (if (bcs.filter (fun bc => !bc.isTopBottom)).isEmpty then []
             else bcs)) cc with
        | some v => (v, cc)
        | none =>
          (f, (sortBCs
            (if (bcs.filter (fun bc => !bc.isTopBottom)).isEmpty then []
             else bcs), f) :: cc) :=
    fun cc bcs f => rfl
  have hk : sortBCs (if (bcs2.filter (fun bc => !bc.isTopBottom)).isEmpty
        then [] else bcs2)
      = sortBCs (if (bcs1.filter (fun bc => !bc.isTopBottom)).isEmpty
        then [] else bcs1) := by
    rw [hfil1, hfil2, ← hie]
    by_cases he : bcs1.isEmpty = true
    · rw [if_pos he, if_pos he]
    · rw [if_neg he, if_neg he]
      exact hkey
  simp only [hunf, hk]
  cases hl : alookup (sortBCs
      (if (bcs1.filter (fun bc => !bc.isTopBottom)).isEmpty then []
       else bcs1)) c with
  | some v => simp only [hl]
  | none => simp only [hl, alookup_cons_self]

/-- Witness for C2: two scalar bcs supplied in the two orders; the second
call returns the identity 7 stored by the first, with the cache unchanged. -/
theorem getMap_cache_order_independent_witness :
    getMapCached
        ((getMapCached [] [⟨2, false, none, 1, [1]⟩, ⟨1, false, none, 1, [3]⟩] 7).2)
        [⟨1, false, none, 1, [3]⟩, ⟨2, false, none, 1, [1]⟩] 9 =
      getMapCached [] [⟨2, false, none, 1, [1]⟩, ⟨1, false, none, 1, [3]⟩] 7 :=
  getMap_cache_order_independent []
    [⟨2, false, none, 1, [1]⟩, ⟨1, false, none, 1, [3]⟩]
    [⟨1, false, none, 1, [3]⟩, ⟨2, false, none, 1, [1]⟩] 7 9
    (by decide) (by decide) (by decide)

/-- C5 counterexample: at exactly 2^(bits-4) nodes (bits = 32) on a
non-extruded mesh the code raises, although the count does not strictly
exceed 2^(bits-4): failure is not equivalent to strict excess. -/
theorem get_node_set_not_strict_exceed :
    ¬ (((get_node_set false 32 (2 ^ 28)).isOk = false) ↔
        (false = false ∧ 2 ^ (32 - 4) < 2 ^ 28)) := by decide

/-- C5 amended: building the node set fails exactly when the mesh is
non-extruded and the local node count reaches or exceeds 2^(bits-4);
extruded meshes are never subject to the check. -/
theorem get_node_set_limit (ext : Bool) (bits total : Nat) :
    (get_node_set ext bits total).isOk = false ↔
      (ext = false ∧ 2 ^ (bits - 4) ≤ total) := by
  unfold get_node_set
  have hs : (1 <<< (bits - 4)) = 2 ^ (bits - 4) := by
    rw [Nat.shiftLeft_eq, one_mul]
  cases ext with
  | false =>
    by_cases h : (1 <<< (bits - 4)) ≤ total
    · rw [hs] at h
      simp [hs, h, Except.isOk, Except.toBool]
    · rw [hs] at h
      simp [hs, h, Except.isOk, Except.toBool]
  | true => simp [Except.isOk, Except.toBool]

/-- C3: on a non-variable-layers mesh, get_boundary_nodes with sub_domain
"on_boundary" never assigns the local variable `indices` before the marker
step reads it: the call fails with UnboundLocalError instead of returning
the sorted de-duplicated boundary node array. -/
theorem boundary_nodes_on_boundary_unbound :
    get_boundary_nodes false false BSub.onBoundary [] [[0, 1], [1, 2]] []
        [] 2 4 id =
      .error "UnboundLocalError: local variable indices referenced before assignment"
    := by rfl

/-- C10: the work-function limit get/set pair round-trips per
(mesh, ufl element) key, and a key never set reads the default 25. -/
theorem work_functions_roundtrip (m e v : Nat) (s : WFCache)
    (hnever : alookup (m, e) s = none) :
    get_max_work_functions m e (set_max_work_functions m e v s) = v ∧
    get_max_work_functions m e s = 25 := by
  constructor
  · simp [get_max_work_functions, set_max_work_functions, alookup]
  · simp [get_max_work_functions, hnever]

/-- Witness for C10 on the empty cache. -/
theorem work_functions_roundtrip_witness :
    get_max_work_functions 0 1 (set_max_work_functions 0 1 7 []) = 7 ∧
    get_max_work_functions 0 1 [] = 25 :=
  work_functions_roundtrip 0 1 7 [] (by rfl)

lemma bmStepKey_support (dim es : Nat) (ecdEnt : List (Nat × List Nat))
    (st : BMState) (sk : Nat)
    (h : st.supIdx = [] ∧ ∀ c ∈ st.supCounts, c = 0) :
    (bmStepKey dim es none ecdEnt st sk).supIdx = [] ∧
    ∀ c ∈ (bmStepKey dim es none ecdEnt st sk).supCounts, c = 0 := by
  unfold bmStepKey
  by_cases hf : es = dim - 1
  · simp only [hf, if_pos rfl]
    refine ⟨h.1, ?_⟩
    intro c hc
    rcases List.mem_append.mp hc with h1 | h1
    · exact h.2 c h1
    · rw [List.mem_singleton.mp h1]
  · simp only [if_neg hf]
    refine ⟨h.1, ?_⟩
    intro c hc
    rcases List.mem_append.mp hc with h1 | h1
    · exact h.2 c h1
    · rw [List.mem_singleton.mp h1]

/-- C8 amended: on an extruded mesh whose element does not implement
entity_support_dofs (the NotImplementedError is caught, esd = none),
get_boundary_masks does not raise and still returns both dict entries: the
topological mask in full, and a geometric entry that is present but
degraded to an empty mask (no indices, every section dof count zero) --
not absent. -/
theorem boundary_masks_support_degraded (dim : Nat)
    (ecd : List ((Nat × Nat) × List (Nat × List Nat))) :
    ∃ tm gm,
      get_boundary_masks true dim ecd none =
        some [("topological", tm), ("geometric", gm)] ∧
      gm.indices = [] ∧ (∀ c ∈ gm.dofCounts, c = 0) ∧
      gm.facetPoints = tm.facetPoints := by
  unfold get_boundary_masks
  simp only [Bool.not_true, Bool.false_eq_true, if_false]
  refine ⟨_, _, rfl, ?_⟩
  have hpres : ∀ (l : List (Nat × Nat)) (st : BMState),
      st.supIdx = [] ∧ (∀ c ∈ st.supCounts, c = 0) →
      (l.foldl
        (fun st ent =>
          if ent.1 + ent.2 = dim then st
          else
            let ecdEnt := (alookup ent ecd).getD []
            let esdEnt := (none : Option
              (List ((Nat × Nat) × List (Nat × List Nat)))).map
                (fun e => (alookup ent e).getD [])
            (sortNat (ecdEnt.map Prod.fst)).foldl
              (bmStepKey dim (ent.1 + ent.2) esdEnt ecdEnt) st)
        st).supIdx = [] ∧
      ∀ c ∈ (l.foldl
        (fun st ent =>
          if ent.1 + ent.2 = dim then st
          else
            let ecdEnt := (alookup ent ecd).getD []
            let esdEnt := (none : Option
              (List ((Nat × Nat) × List (Nat × List Nat)))).map
                (fun e => (alookup ent e).getD [])
            (sortNat (ecdEnt.map Prod.fst)).foldl
              (bmStepKey dim (ent.1 + ent.2) esdEnt ecdEnt) st)
        st).supCounts, c = 0 := by
    intro l st hst
    refine foldl_preserve
      (fun st => st.supIdx = [] ∧ ∀ c ∈ st.supCounts, c = 0)
      (fun st ent =>
        if ent.1 + ent.2 = dim then st
        else
          let ecdEnt := (alookup ent ecd).getD []
          let esdEnt := (none : Option
            (List ((Nat × Nat) × List (Nat × List Nat)))).map
              (fun e => (alookup ent e).getD [])
          (sortNat (ecdEnt.map Prod.fst)).foldl
            (bmStepKey dim (ent.1 + ent.2) esdEnt ecdEnt) st)
      ?_ l st hst
    intro st2 ent hst2
    by_cases hcell : ent.1 + ent.2 = dim
    · simpa [hcell]
    · simp only [hcell, if_false, Option.map_none']
      exact foldl_preserve
        (fun st => st.supIdx = [] ∧ ∀ c ∈ st.supCounts, c = 0)
        (bmStepKey dim (ent.1 + ent.2) none ((alookup ent ecd).getD []))
        (fun st sk h => bmStepKey_support dim (ent.1 + ent.2)
          ((alookup ent ecd).getD []) st sk h)
        _ _ hst2
  have h := hpres (sortPair (ecd.map Prod.fst)) ⟨0, [], [], [], [], []⟩
    ⟨rfl, by intro c hc; exact absurd hc (List.not_mem_nil c)⟩
  exact ⟨h.1, h.2, rfl⟩

/-- The entity closure dofs of a 2-dimensional extruded (quad) P1 cell:
vertices, the two facet classes, and the cell. -/
def ecdQuad : List ((Nat × Nat) × List (Nat × List Nat)) :=
  [((0, 0), [(0, [0]), (1, [1]), (2, [2]), (3, [3])]),
   ((0, 1), [(0, [0, 2]), (1, [1, 3])]),
   ((1, 0), [(0, [0, 1]), (1, [2, 3])]),
   ((1, 1), [(0, [0, 1, 2, 3])])]

/-- C8 counterexample: with entity_support_dofs unavailable (esd = none) on
the extruded quad cell, the returned mask dict still holds a "geometric"
entry (an empty mask), so the geometric method is not degraded to an absent
(None / missing) entry as the claim states. -/
theorem boundary_masks_geometric_present :
    alookup "geometric" ((get_boundary_masks true 2 ecdQuad none).getD []) =
      some ⟨[0, 0, 0, 0, 0, 0, 0, 0], [], [4, 5, 6, 7]⟩ := by decide

/-- Two entity_dofs association lists that represent the very same
(entity key -> sub-entity key -> dof tuple) mapping, possibly listed in
different native orders: same entity key multiset, and for every entity key
the same sub-entity key multiset with pointwise equal dof tuples. -/
abbrev StructEq (d1 d2 : List (Nat × List (Nat × List Nat))) : Prop :=
  (d1.map Prod.fst).Perm (d2.map Prod.fst) ∧
  ∀ k ∈ d1.map Prod.fst,
    ((((alookup k d1).getD []).map Prod.fst).Perm
      (((alookup k d2).getD []).map Prod.fst)) ∧
    ∀ sk ∈ ((alookup k d1).getD []).map Prod.fst,
      alookup sk ((alookup k d1).getD []) = alookup sk ((alookup k d2).getD [])

lemma sortNat_perm_eq (l1 l2 : List Nat) (h : l1.Perm l2) :
    sortNat l1 = sortNat l2 := by
  apply List.eq_of_perm_of_sorted (r := (· ≤ · : Nat → Nat → Prop))
  · exact ((List.perm_insertionSort _ l1).trans h).trans
      (List.perm_insertionSort _ l2).symm
  · exact List.sorted_insertionSort _ l1
  · exact List.sorted_insertionSort _ l2

lemma mem_sortNat {x : Nat} {l : List Nat} : x ∈ sortNat l ↔ x ∈ l :=
  (List.perm_insertionSort (· ≤ ·) l).mem_iff

lemma alookup_mem {α : Type} {k : Nat} {l : List (Nat × α)} {v : α}
    (h : alookup k l = some v) : k ∈ l.map Prod.fst := by
  unfold alookup at h
  cases hf : l.find? (fun p => p.1 == k) with
  | none => rw [hf] at h; exact absurd h (by simp)
  | some p =>
    have hp := List.find?_some hf
    have hm : p ∈ l := List.mem_of_find?_eq_some hf
    have hpk : p.1 = k := by simpa using hp
    exact hpk ▸ List.mem_map_of_mem Prod.fst hm

lemma innerKey_congr (i1 i2 : List (Nat × List Nat))
    (hperm : (i1.map Prod.fst).Perm (i2.map Prod.fst))
    (hlk : ∀ sk ∈ i1.map Prod.fst, alookup sk i1 = alookup sk i2) :
    innerKey i1 = innerKey i2 := by
  unfold innerKey
  rw [sortNat_perm_eq _ _ hperm]
  apply List.map_congr_left
  intro sk hsk
  have hsk1 : sk ∈ i1.map Prod.fst := hperm.mem_iff.mpr (mem_sortNat.mp hsk)
  rw [hlk sk hsk1]

/-- C7: entity_dofs_key is pure and representation-order independent:
structurally identical entity_dofs mappings get the identical canonical
key whatever their native list order; and the dof tuples are carried into
the key exactly as stored (never re-sorted): every stored dof tuple appears
verbatim inside its entity entry of the key. -/
theorem entity_dofs_key_canonical (d1 d2 : List (Nat × List (Nat × List Nat)))
    (hse : StructEq d1 d2) :
    entity_dofs_key d1 = entity_dofs_key d2 ∧
    ∀ k sub sk dofs, alookup k d1 = some sub → alookup sk sub = some dofs →
      (k, innerKey sub) ∈ entity_dofs_key d1 ∧ dofs ∈ innerKey sub := by
  obtain ⟨hkp, hin⟩ := hse
  constructor
  · unfold entity_dofs_key
    rw [sortNat_perm_eq _ _ hkp]
    apply List.map_congr_left
    intro k hk
    have hk1 : k ∈ d1.map Prod.fst := hkp.mem_iff.mpr (mem_sortNat.mp hk)
    obtain ⟨hip, hlk⟩ := hin k hk1
    rw [innerKey_congr _ _ hip hlk]
  · intro k sub sk dofs hks hsd
    constructor
    · unfold entity_dofs_key
      have hk1 : k ∈ sortNat (d1.map Prod.fst) :=
        mem_sortNat.mpr (alookup_mem hks)
      have hmm : (k, innerKey ((alookup k d1).getD [])) ∈
          (sortNat (d1.map Prod.fst)).map
            (fun j => (j, innerKey ((alookup j d1).getD []))) :=
        List.mem_map_of_mem _ hk1
      rw [hks] at hmm
      simpa using hmm
    · unfold innerKey
      have hsk1 : sk ∈ sortNat (sub.map Prod.fst) :=
        mem_sortNat.mpr (alookup_mem hsd)
      have hmm : (alookup sk sub).getD [] ∈
          (sortNat (sub.map Prod.fst)).map (fun j => (alookup j sub).getD []) :=
        List.mem_map_of_mem _ hsk1
      rw [hsd] at hmm
      simpa using hmm

/-- A concrete entity_dofs dict in one native order. -/
def dofsA : List (Nat × List (Nat × List Nat)) :=
  [(1, [(0, [3])]), (0, [(1, [2, 0]), (0, [1])])]

/-- The same mapping listed in another native order. -/
def dofsB : List (Nat × List (Nat × List Nat)) :=
  [(0, [(0, [1]), (1, [2, 0])]), (1, [(0, [3])])]

/-- Witness for C7: the two orderings are structurally equal, canonicalize
to the same key, and the unsorted dof tuple [2, 0] survives verbatim. -/
theorem entity_dofs_key_canonical_witness :
    StructEq dofsA dofsB ∧
    entity_dofs_key dofsA = entity_dofs_key dofsB ∧
    ((0, innerKey [(1, [2, 0]), (0, [1])]) ∈ entity_dofs_key dofsA ∧
      [2, 0] ∈ innerKey [(1, [2, 0]), (0, [1])]) := by
  have h := entity_dofs_key_canonical dofsA dofsB (by decide)
  exact ⟨by decide, h.1,
    h.2 0 [(1, [2, 0]), (0, [1])] 1 [2, 0] (by decide) (by decide)⟩

end FSD
